import Mathlib

/-!
Shallow embedding of the virtual-clock price-refresh core of
`src/api/api.go` (package `api` of the go-vuln repository): the `Api`
state, the retry loop of `refreshCoins`, the daemon loop of
`managePrices`, and the `getCoin` lookup.

Go `time.Time` values are embedded as their `UnixMilli` value (an `Int`);
adding 24 hours to a Go time adds exactly 86400000 to that value. The
upstream HTTP world is embedded as a list of attempt outcomes offered to
the retry loop of `refreshCoins`: each outcome is either a transport
error (`http.Get` returns a non-nil error) or a completed response
carrying its HTTP status code, a flag saying whether JSON decoding of the
body returned a non-nil error, and the coin list decoding left in the
target slice.
-/

/-- Modelled from the spec: the struct `m.Coin` lives in package
`govulnapi/models`, which is not under `src/`; the spec describes a coin
as a string identifier, unique within a snapshot, plus price/metadata
fields the core treats as an uninterpreted payload, collapsed here into
one string field. -/
structure Coin where
  Id : String
  payload : String
deriving DecidableEq

/-- Go zero value of `m.Coin`: every field at its zero value. -/
def Coin.zero : Coin := ⟨"", ""⟩

/-- Core state of the `Api` struct (api.go lines 124-141). The `db`,
`router`, `listenAddress` and `jwtAuth` fields are external collaborators
excluded by the spec, and none of the embedded operations touch them.
`currentDate` is the `UnixMilli` value of the Go `time.Time`. -/
structure Api where
  coins : List Coin
  currentDate : Int
  dayDuration : Int
  coingeckoBaseUrl : String
deriving DecidableEq

/-- Milliseconds in 24 hours, the amount `managePrices` adds to
`currentDate` on every tick. -/
def dayMillis : Int := 86400000

/-- Milliseconds in one minute, the `priceRefreshInterval` set in `New`. -/
def minuteMillis : Int := 60000

/-- Days from 1970-01-01 to the given Gregorian calendar date, the civil
calendar conversion performed by Go `time.Date(..., time.UTC)` followed
by `UnixMilli`. It is only used at year 2014, where truncated and floored
integer division agree. -/
def daysFromCivil (y : Int) (m d : Nat) : Int :=
  let yAdj : Int := if m ≤ 2 then y - 1 else y
  let era : Int := yAdj / 400
  let yoe : Int := yAdj - era * 400
  let mp : Nat := if 2 < m then m - 3 else m + 9
  let doy : Int := (153 * (mp : Int) + 2) / 5 + (d : Int) - 1
  let doe : Int := yoe * 365 + yoe / 4 - yoe / 100 + doy
  era * 146097 + doe - 719468

/-- UnixMilli of `time.Date(2014, time.January, 1, 0, 0, 0, 0, time.UTC)`,
the `virtualTime` of `New` (api.go line 159). -/
def initialDateMillis : Int := daysFromCivil 2014 1 1 * dayMillis

/-- The constructor `New` (api.go lines 152-188) restricted to the core
fields: the initial coin list comes from the external database, the base
URL from configuration. -/
def newApi (coins0 : List Coin) (baseUrl : String) : Api :=
  { coins := coins0
    currentDate := initialDateMillis
    dayDuration := minuteMillis
    coingeckoBaseUrl := baseUrl }

/-- Outcome the upstream offers to one `http.Get` call inside
`refreshCoins`: either a transport error (non-nil `err`), or a completed
response with its HTTP status code, a flag saying whether
`json.NewDecoder(r.Body).Decode(&coins)` returned a non-nil error, and
the coin list decoding left behind (empty when decoding fails outright,
possibly a prefix of the payload on element errors). -/
inductive Attempt where
  | failure : Attempt
  | success (status : Nat) (decodeFailed : Bool) (decoded : List Coin) : Attempt
deriving DecidableEq

/-- URL built by `refreshCoins` (api.go line 248) from the base URL and
`a.currentDate.UnixMilli()`. -/
def fetchUrl (a : Api) : String :=
  a.coingeckoBaseUrl ++ "/coins/" ++ toString a.currentDate

/-- Retry loop plus decode and store of `refreshCoins` (api.go lines
252-267), run against a finite list of offered attempt outcomes. Returns
`none` when every offered outcome is a transport error (the Go loop would
still be running), otherwise `some` of the updated state together with the
number of `http.Get` calls made and the total milliseconds slept in
`time.Sleep(time.Second)` after failed calls. -/
def refreshLoop (a : Api) : List Attempt → Option (Api × Nat × Nat)
  | [] => none
  | Attempt.failure :: rest =>
      match refreshLoop a rest with
      | some (a', n, s) => some (a', n + 1, s + 1000)
      | none => none
  | Attempt.success _ _ decoded :: _ =>
      some ({ a with coins := decoded }, 1, 0)

/-- The method `refreshCoins` (api.go lines 239-268). The decode error and
the HTTP status code are ignored by the source; `a.coins` is assigned
whatever decoding produced. -/
def refreshCoins (a : Api) (env : List Attempt) : Option (Api × Nat × Nat) :=
  refreshLoop a env

/-- State of the `Api` observable after each attempt of the retry loop of
`refreshCoins`: a failed attempt only sleeps, so the state after it is the
entry state; the first completed response ends the loop and `a.coins` is
assigned the decode result. -/
def refreshTrace (a : Api) : List Attempt → List Api
  | [] => []
  | Attempt.failure :: rest => a :: refreshTrace a rest
  | Attempt.success _ _ decoded :: _ => [{ a with coins := decoded }]

/-- One iteration of the `managePrices` loop (api.go lines 224-234):
`refreshCoins`, then `currentDate` advances by 24 hours. The returned
string is the URL the fetch of this tick requested; the concluding
`time.Sleep(a.dayDuration)` changes no state. -/
def tick (a : Api) (env : List Attempt) : Option (String × Api) :=
  match refreshCoins a env with
  | none => none
  | some (a', _, _) =>
      some (fetchUrl a, { a' with currentDate := a'.currentDate + dayMillis })

/-- Finitely many iterations of the `managePrices` loop, one offered
environment per tick; returns the URL fetched and the state at the end of
each completed tick. -/
def runTicks (a : Api) : List (List Attempt) → Option (List (String × Api))
  | [] => some []
  | env :: rest =>
      match tick a env with
      | none => none
      | some (u, a') =>
          match runTicks a' rest with
          | none => none
          | some tr => some ((u, a') :: tr)

/-- Loop body of `getCoin` (api.go lines 282-291): the first coin whose
`Id` equals the requested id, else the zero coin and the error message. -/
def findCoin (coin_id : String) : List Coin → Coin × Option String
  | [] => (Coin.zero, some "Requested coin doesn't exist!")
  | coin :: rest =>
      if coin.Id == coin_id then (coin, none) else findCoin coin_id rest

/-- The method `getCoin` (api.go lines 279-292): the pair of return
values. A non-nil Go error is embedded as `some` of its message. -/
def getCoin (a : Api) (coin_id : String) : Coin × Option String :=
  findCoin coin_id a.coins

/-- `getCoin` viewed as a method call on the receiver: its return values
together with the receiver state after the call. The source performs no
write to any field of `a`, so the receiver state after the call is the
receiver state before it. -/
def getCoinSt (a : Api) (coin_id : String) : (Coin × Option String) × Api :=
  (findCoin coin_id a.coins, a)

/-- Concrete catalogs and environments used by the witnesses below. -/
def apiA : Api :=
  { coins := [⟨"btc", "b"⟩, ⟨"eth", "e"⟩], currentDate := 0, dayDuration := 0,
    coingeckoBaseUrl := "" }

def coinX1 : Coin := ⟨"x", "first"⟩

def coinX2 : Coin := ⟨"x", "second"⟩

def dupApi : Api :=
  { coins := [coinX1, coinX2], currentDate := 0, dayDuration := 0,
    coingeckoBaseUrl := "" }

/-- Sanity check: the embedded initial simulated date is the well-known
Unix epoch-millisecond value of 2014-01-01T00:00:00Z. -/
theorem initialDateMillis_eq : initialDateMillis = 1388534400000 := by decide

/-- `findCoin` returns the first match of the scan with a nil error, and
the zero coin with the fixed error message when no coin matches. -/
theorem findCoin_spec (coin_id : String) (l : List Coin) :
    (∀ c : Coin, l.find? (fun x => x.Id == coin_id) = some c →
        findCoin coin_id l = (c, none)) ∧
    (l.find? (fun x => x.Id == coin_id) = none →
        findCoin coin_id l = (Coin.zero, some "Requested coin doesn't exist!")) := by
  induction l with
  | nil =>
      refine ⟨?_, ?_⟩
      · intro c h
        simp [List.find?] at h
      · intro _
        rfl
  | cons x rest ih =>
      cases hx : (x.Id == coin_id) with
      | true =>
          refine ⟨?_, ?_⟩
          · intro c h
            rw [List.find?] at h
            rw [hx] at h
            cases h
            simp [findCoin, hx]
          · intro h
            rw [List.find?] at h
            rw [hx] at h
            cases h
      | false =>
          refine ⟨?_, ?_⟩
          · intro c h
            rw [List.find?] at h
            rw [hx] at h
            simp only [findCoin, hx, if_false, Bool.false_eq_true]
            exact ih.1 c h
          · intro h
            rw [List.find?] at h
            rw [hx] at h
            simp only [findCoin, hx, if_false, Bool.false_eq_true]
            exact ih.2 h

/-- `findCoin` skips a non-matching prefix and returns the first matching
coin it reaches. -/
theorem findCoin_skip_nonmatching (coin_id : String) (pre : List Coin)
    (c : Coin) (tail : List Coin) (hc : c.Id = coin_id)
    (hpre : ∀ x ∈ pre, x.Id ≠ coin_id) :
    findCoin coin_id (pre ++ c :: tail) = (c, none) := by
  induction pre with
  | nil =>
      simp [findCoin, hc]
  | cons x rest ih =>
      have hx : (x.Id == coin_id) = false := by
        simp only [beq_eq_false_iff_ne, ne_eq]
        exact hpre x (List.mem_cons_self x rest)
      rw [List.cons_append, findCoin, hx]
      simp only [Bool.false_eq_true, if_false]
      exact ih (fun y hy => hpre y (List.mem_cons_of_mem x hy))

/-- C2: for every catalog snapshot and identifier, `getCoin` returns the
first coin of the snapshot carrying that identifier with a nil error when
one exists, and a non-nil error (the NotFound condition) when none does. -/
theorem getCoin_first_match_or_notfound (a : Api) (coin_id : String) :
    (∀ c : Coin, a.coins.find? (fun x => x.Id == coin_id) = some c →
        getCoin a coin_id = (c, none)) ∧
    (a.coins.find? (fun x => x.Id == coin_id) = none →
        (getCoin a coin_id).2.isSome = true) := by
  refine ⟨?_, ?_⟩
  · intro c h
    exact (findCoin_spec coin_id a.coins).1 c h
  · intro h
    unfold getCoin
    rw [(findCoin_spec coin_id a.coins).2 h]
    rfl

/-- Witness for C2 at a concrete snapshot: a present id yields its coin
with a nil error, an absent id yields a non-nil error. -/
theorem getCoin_first_match_or_notfound_witness :
    getCoin apiA "btc" = (⟨"btc", "b"⟩, none) ∧
    (getCoin apiA "ltc").2.isSome = true :=
  ⟨(getCoin_first_match_or_notfound apiA "btc").1 ⟨"btc", "b"⟩ (by decide),
   (getCoin_first_match_or_notfound apiA "ltc").2 (by decide)⟩

/-- C8 counterexample: on the snapshot holding two coins with identifier
x, lookup does not resolve to the later duplicate. -/
theorem lookup_duplicate_later_false :
    getCoin dupApi "x" ≠ (coinX2, none) := by decide

/-- C8 amended: if a snapshot contains two coins with the same identifier,
lookup of that identifier resolves to the earlier of the duplicate entries
in snapshot order (first match wins). -/
theorem lookup_duplicate_first_match_wins (a : Api) (coin_id : String)
    (pre mid post : List Coin) (c c' : Coin)
    (hc : c.Id = coin_id) (hc' : c'.Id = coin_id)
    (hpre : ∀ x ∈ pre, x.Id ≠ coin_id)
    (hcoins : a.coins = pre ++ c :: mid ++ c' :: post) :
    getCoin a coin_id = (c, none) := by
  unfold getCoin
  rw [hcoins]
  have h : pre ++ c :: mid ++ c' :: post = pre ++ c :: (mid ++ c' :: post) := by
    simp
  rw [h]
  exact findCoin_skip_nonmatching coin_id pre c (mid ++ c' :: post) hc hpre

/-- Witness for the amended C8 on the concrete duplicate snapshot: lookup
returns the earlier duplicate. -/
theorem lookup_duplicate_first_match_wins_witness :
    getCoin dupApi "x" = (coinX1, none) :=
  lookup_duplicate_first_match_wins dupApi "x" [] [] [] coinX1 coinX2
    rfl rfl (by simp) (by decide)

/-- C10: for an identifier absent from the snapshot, the method call
returns the zero-valued coin paired with the non-nil error whose message
is exactly the source's, and leaves the receiver state unchanged. -/
theorem getCoin_absent_zero_and_error (a : Api) (coin_id : String)
    (h : a.coins.find? (fun x => x.Id == coin_id) = none) :
    getCoinSt a coin_id = ((Coin.zero, some "Requested coin doesn't exist!"), a) := by
  unfold getCoinSt
  rw [(findCoin_spec coin_id a.coins).2 h]

/-- Witness for C10 at a concrete snapshot and absent identifier. -/
theorem getCoin_absent_zero_and_error_witness :
    getCoinSt apiA "ltc" = ((Coin.zero, some "Requested coin doesn't exist!"), apiA) :=
  getCoin_absent_zero_and_error apiA "ltc" (by decide)

/-- C3: when the upstream fails K times and then completes, `refreshCoins`
makes exactly K+1 `http.Get` calls, sleeps 1000 milliseconds after each of
the K failed calls, and returns right after the completed one; when every
offered outcome is a failure it does not return at all. -/
theorem refreshCoins_retry_until_success (a : Api) (K : Nat) (st : Nat)
    (e : Bool) (cs : List Coin) (rest : List Attempt) :
    refreshCoins a
        (List.replicate K Attempt.failure ++ Attempt.success st e cs :: rest)
      = some ({ a with coins := cs }, K + 1, 1000 * K)
    ∧ refreshCoins a (List.replicate K Attempt.failure) = none := by
  induction K with
  | zero => exact ⟨rfl, rfl⟩
  | succ k ih =>
      have ih1 : refreshLoop a
          (List.replicate k Attempt.failure ++ Attempt.success st e cs :: rest)
          = some ({ a with coins := cs }, k + 1, 1000 * k) := ih.1
      have ih2 : refreshLoop a (List.replicate k Attempt.failure) = none := ih.2
      refine ⟨?_, ?_⟩
      · show refreshLoop a _ = _
        rw [List.replicate_succ, List.cons_append, refreshLoop, ih1]
        simp [Nat.mul_succ]
      · show refreshLoop a _ = _
        rw [List.replicate_succ, refreshLoop, ih2]

/-- C6: across the retry loop of one refresh, the catalog still holds the
entry snapshot after every failed attempt, and is written exactly once,
after the completed attempt, with the decode result; when every attempt
fails the catalog is never written. -/
theorem catalog_unchanged_while_failing (a : Api) (K : Nat) (st : Nat)
    (e : Bool) (cs : List Coin) (rest : List Attempt) :
    refreshTrace a
        (List.replicate K Attempt.failure ++ Attempt.success st e cs :: rest)
      = List.replicate K a ++ [{ a with coins := cs }]
    ∧ refreshTrace a (List.replicate K Attempt.failure) = List.replicate K a := by
  induction K with
  | zero => exact ⟨rfl, rfl⟩
  | succ k ih =>
      refine ⟨?_, ?_⟩
      · rw [List.replicate_succ, List.cons_append, refreshTrace, ih.1,
          List.replicate_succ, List.cons_append]
      · rw [List.replicate_succ, refreshTrace, ih.2, List.replicate_succ]

/-- C7: a completed response whose body fails to decode surfaces no error,
the refresh completes normally in that single attempt, and whatever the
failed decode produced (an empty list when decoding fails outright) is
installed as the new catalog. -/
theorem decode_failure_silently_installed (a : Api) (st : Nat)
    (cs : List Coin) (rest : List Attempt) :
    refreshCoins a (Attempt.success st true cs :: rest)
      = some ({ a with coins := cs }, 1, 0) := rfl

/-- C9: a completed response ends the retry loop after that single
attempt regardless of its HTTP status code and of the decode error flag;
the decode result is installed as the new catalog. -/
theorem completed_response_ends_retry_any_status (a : Api) (st : Nat)
    (e : Bool) (cs : List Coin) (rest : List Attempt) :
    refreshCoins a (Attempt.success st e cs :: rest)
      = some ({ a with coins := cs }, 1, 0) := rfl

/-- The retry loop of a refresh only ever rewrites the `coins` field: a
successful result is the entry state with `coins` replaced by some decode
result. -/
theorem refreshLoop_shape (env : List Attempt) :
    ∀ (a : Api) (r : Api × Nat × Nat), refreshLoop a env = some r →
      ∃ cs : List Coin, r.1 = { a with coins := cs } := by
  induction env with
  | nil =>
      intro a r h
      exact absurd h (by simp [refreshLoop])
  | cons o rest ih =>
      intro a r h
      cases o with
      | failure =>
          simp only [refreshLoop] at h
          cases hrec : refreshLoop a rest with
          | none => rw [hrec] at h; exact absurd h (by simp)
          | some v =>
              obtain ⟨a'', n'', s''⟩ := v
              rw [hrec] at h
              obtain ⟨cs, hcs⟩ := ih a (a'', n'', s'') hrec
              cases h
              exact ⟨cs, hcs⟩
      | success st e cs =>
          simp only [refreshLoop] at h
          cases h
          exact ⟨cs, rfl⟩

/-- One completed tick returns the URL built from the entry state, advances
`currentDate` by exactly 24 hours, and preserves the base URL and the tick
interval. -/
theorem tick_spec (a : Api) (env : List Attempt) (u : String) (a' : Api)
    (h : tick a env = some (u, a')) :
    u = fetchUrl a ∧ a'.currentDate = a.currentDate + dayMillis ∧
    a'.coingeckoBaseUrl = a.coingeckoBaseUrl ∧ a'.dayDuration = a.dayDuration := by
  unfold tick at h
  cases hr : refreshCoins a env with
  | none => rw [hr] at h; exact absurd h (by simp)
  | some r =>
      obtain ⟨a'', n, s⟩ := r
      rw [hr] at h
      obtain ⟨cs, hcs⟩ := refreshLoop_shape env a (a'', n, s) hr
      replace hcs : a'' = { a with coins := cs } := hcs
      cases h
      subst hcs
      exact ⟨rfl, rfl, rfl, rfl⟩

/-- Shape of a completed multi-tick run from an arbitrary start state: one
entry per environment, the state after tick k+1 sits at exactly k+1 days
past the start date, and the URL of tick k+1 encodes the start date plus k
days. -/
theorem runTicks_spec (envs : List (List Attempt)) :
    ∀ (a : Api) (tr : List (String × Api)), runTicks a envs = some tr →
      tr.length = envs.length ∧
      ∀ k (hk : k < tr.length),
        ((tr.get ⟨k, hk⟩).2).currentDate = a.currentDate + ((k : Int) + 1) * dayMillis ∧
        ((tr.get ⟨k, hk⟩).2).coingeckoBaseUrl = a.coingeckoBaseUrl ∧
        (tr.get ⟨k, hk⟩).1 =
          a.coingeckoBaseUrl ++ "/coins/" ++
            toString (a.currentDate + (k : Int) * dayMillis) := by
  induction envs with
  | nil =>
      intro a tr h
      simp only [runTicks] at h
      cases h
      exact ⟨rfl, fun k hk => absurd hk (by simp)⟩
  | cons env rest ih =>
      intro a tr h
      simp only [runTicks] at h
      split at h
      · exact absurd h (by simp)
      · next u a' ht =>
          split at h
          · exact absurd h (by simp)
          · next tr' hrec =>
              cases h
              obtain ⟨hu, hdate, hbase, _⟩ := tick_spec a env u a' ht
              obtain ⟨hlen, hidx⟩ := ih a' tr' hrec
              refine ⟨by simp [hlen], ?_⟩
              intro k hk
              cases k with
              | zero =>
                  refine ⟨?_, ?_, ?_⟩
                  · show a'.currentDate = _
                    rw [hdate]
                    push_cast
                    ring
                  · exact hbase
                  · show u = _
                    have hz : a.currentDate + ((0 : Nat) : Int) * dayMillis
                        = a.currentDate := by push_cast; ring
                    rw [hz, hu]
                    rfl
              | succ j =>
                  have hj : j < tr'.length := by
                    simpa using hk
                  obtain ⟨h1, h2, h3⟩ := hidx j hj
                  refine ⟨?_, ?_, ?_⟩
                  · show ((tr'.get ⟨j, hj⟩).2).currentDate = _
                    rw [h1, hdate]
                    push_cast
                    ring
                  · show ((tr'.get ⟨j, hj⟩).2).coingeckoBaseUrl = _
                    rw [h2, hbase]
                  · show (tr'.get ⟨j, hj⟩).1 = _
                    rw [h3, hbase, hdate]
                    have harg : a.currentDate + dayMillis + (j : Int) * dayMillis
                        = a.currentDate + (((j + 1 : Nat)) : Int) * dayMillis := by
                      push_cast
                      ring
                    rw [harg]

/-- C1: after tick N of a completed run started from `New`, the virtual
clock sits at the initial simulated date (2014-01-01 UTC, embedded as its
UnixMilli value) plus exactly N days, whatever each tick's fetch history
was; and across the whole execution the date never moves backward. -/
theorem virtual_clock_exact_one_day_per_tick (coins0 : List Coin)
    (baseUrl : String) (envs : List (List Attempt))
    (tr : List (String × Api))
    (h : runTicks (newApi coins0 baseUrl) envs = some tr) :
    tr.length = envs.length ∧
    (∀ k (hk : k < tr.length),
        ((tr.get ⟨k, hk⟩).2).currentDate
          = initialDateMillis + ((k : Int) + 1) * dayMillis) ∧
    (∀ j k (hj : j < tr.length) (hk : k < tr.length), j ≤ k →
        ((tr.get ⟨j, hj⟩).2).currentDate ≤ ((tr.get ⟨k, hk⟩).2).currentDate) ∧
    (∀ k (hk : k < tr.length),
        (newApi coins0 baseUrl).currentDate
          ≤ ((tr.get ⟨k, hk⟩).2).currentDate) := by
  obtain ⟨hlen, hidx⟩ := runTicks_spec envs (newApi coins0 baseUrl) tr h
  have hdate : ∀ k (hk : k < tr.length),
      ((tr.get ⟨k, hk⟩).2).currentDate
        = initialDateMillis + ((k : Int) + 1) * dayMillis := by
    intro k hk
    have hk' := (hidx k hk).1
    simpa [newApi] using hk'
  have hday : (0 : Int) ≤ dayMillis := by norm_num [dayMillis]
  refine ⟨hlen, hdate, ?_, ?_⟩
  · intro j k hj hk hjk
    rw [hdate j hj, hdate k hk]
    have hjk' : ((j : Int) + 1) ≤ ((k : Int) + 1) := by
      have : (j : Int) ≤ (k : Int) := by exact_mod_cast hjk
      linarith
    have hm : ((j : Int) + 1) * dayMillis ≤ ((k : Int) + 1) * dayMillis :=
      mul_le_mul_of_nonneg_right hjk' hday
    linarith
  · intro k hk
    rw [hdate k hk]
    show initialDateMillis ≤ _
    have hk0 : (0 : Int) ≤ ((k : Int) + 1) := by positivity
    have hm : (0 : Int) ≤ ((k : Int) + 1) * dayMillis := mul_nonneg hk0 hday
    linarith

/-- C4: in a completed run started from `New`, the fetch of tick N
requests the URL formed from the base URL and the epoch-millisecond
encoding of the initial simulated date plus N-1 days: the first tick
fetches the initial configured date, and every later tick fetches the
date produced by the previous tick's advance. -/
theorem tick_fetch_url_schedule (coins0 : List Coin) (baseUrl : String)
    (envs : List (List Attempt)) (tr : List (String × Api))
    (h : runTicks (newApi coins0 baseUrl) envs = some tr) :
    ∀ k (hk : k < tr.length),
      (tr.get ⟨k, hk⟩).1 =
        baseUrl ++ "/coins/" ++
          toString (initialDateMillis + (k : Int) * dayMillis) := by
  intro k hk
  have hk' := ((runTicks_spec envs (newApi coins0 baseUrl) tr h).2 k hk).2.2
  simpa [newApi] using hk'

/-- Concrete two-tick run used by the witnesses: tick one completes on
the first attempt, tick two fails once and then completes. -/
def envA : List (List Attempt) :=
  [[Attempt.success 200 false []],
   [Attempt.failure, Attempt.success 200 false [⟨"btc", "p"⟩]]]

def trA : List (String × Api) := (runTicks (newApi [] "u") envA).getD []

/-- Witness for C1 on the concrete two-tick run. -/
theorem virtual_clock_exact_one_day_per_tick_witness :
    trA.length = envA.length ∧
    ((trA.get ⟨0, by decide⟩).2).currentDate
      = initialDateMillis + (((0 : Nat) : Int) + 1) * dayMillis :=
  ⟨(virtual_clock_exact_one_day_per_tick [] "u" envA trA (by decide)).1,
   (virtual_clock_exact_one_day_per_tick [] "u" envA trA (by decide)).2.1
     0 (by decide)⟩

/-- Witness for C4 on the concrete two-tick run: the second tick fetches
the date the first tick's advance produced. -/
theorem tick_fetch_url_schedule_witness :
    (trA.get ⟨1, by decide⟩).1 =
      "u" ++ "/coins/" ++
        toString (initialDateMillis + ((1 : Nat) : Int) * dayMillis) :=
  tick_fetch_url_schedule [] "u" envA trA (by decide) 1 (by decide)
